import Mathlib

/-!
Shallow embedding of the vocabulary-viewer front-end (main variant `src/App.tsx`),
covering the CSV row normalizer, the import pipeline, the export serializer,
the filter/sort derivation, the study-list fallback, the favorites toggle,
the persistence `load` helper and the URL import handler.

External platform functions (`String.prototype.trim`, `toLowerCase`, `split`,
`Array.prototype.join`, `Number`, number-to-string conversion) are modelled by
executable Lean functions over `List Char` with the same observable behaviour
on the data handled here.  The CSV text layer (Papa.parse / Papa.unparse) is
the spec's external collaborator and is modelled as the identity on records:
functions that consume CSV text in the source consume the parsed header→value
records here.
-/

/-- Model of JavaScript whitespace for `trim` and the `\s` character class
(ASCII whitespace, NBSP, ideographic space, BOM). -/
def isWS (c : Char) : Bool :=
  c.toNat = 32 || c.toNat = 9 || c.toNat = 10 || c.toNat = 11 || c.toNat = 12 ||
    c.toNat = 13 || c.toNat = 160 || c.toNat = 12288 || c.toNat = 65279

/-- Remove leading and trailing whitespace from a character list. -/
def trimList (cs : List Char) : List Char :=
  ((cs.dropWhile isWS).reverse.dropWhile isWS).reverse

/-- Model of `String.prototype.trim`. -/
def jsTrim (s : String) : String := String.mk (trimList s.data)

/-- Model of `String.prototype.toLowerCase` (ASCII case folding). -/
def jsToLower (s : String) : String := String.mk (s.data.map Char.toLower)

/-- Key normalization applied by `normalizeRow` to header names:
`k.toLowerCase().trim()`. -/
def keyNorm (k : String) : String := jsTrim (jsToLower k)

/-- Model of `Array.prototype.join(sep)`. -/
def joinSep (sep : String) : List String → String
  | [] => ""
  | [s] => s
  | s :: rest => s ++ sep ++ joinSep sep rest

/-- Split a character list at every delimiter character, keeping empty
fragments (one fragment more than the number of delimiters). -/
def splitCore (isD : Char → Bool) : List Char → List (List Char)
  | [] => [[]]
  | c :: cs =>
    match splitCore isD cs with
    | [] => [[]]
    | f :: fs => if isD c then [] :: f :: fs else (c :: f) :: fs

/-- Model of `s.split(/[D]+/).filter(Boolean)`: splitting on runs of
delimiters and discarding empty fragments is the same as splitting at every
single delimiter and discarding empty fragments. -/
def jsSplit (isD : Char → Bool) (s : String) : List String :=
  ((splitCore isD s.data).map (fun l => String.mk l)).filter (fun t => t != "")

/-- Delimiter class of the tags split in `normalizeRow`: `/[;,，、\s]+/`. -/
def isTagDelim (c : Char) : Bool :=
  c == ';' || c == ',' || c == '，' || c == '、' || isWS c

/-- Delimiter class of the images split in `normalizeRow`: `/[;,，\s]+/`
(note: no Chinese enumeration comma). -/
def isImgDelim (c : Char) : Bool :=
  c == ';' || c == ',' || c == '，' || isWS c

/-- Decimal digit to character. -/
def digitToChar (d : Nat) : Char := Char.ofNat (48 + d)

/-- Character to decimal digit value. -/
def charToDigit (c : Char) : Nat := c.toNat - 48

/-- Model of JavaScript number-to-string conversion on the non-negative
integers handled here (the spec fixes `frequency` as a non-negative number). -/
def numToStr (n : Nat) : String :=
  if n = 0 then "0" else String.mk (((Nat.digits 10 n).map digitToChar).reverse)

/-- Model of `Number(s)` on the values it is applied to here, returning
`none` where the source obtains a non-finite result. -/
def strToNum (s : String) : Option Nat :=
  if s ≠ "" ∧ s.data.all (fun c => c.isDigit) then
    some (Nat.ofDigits 10 ((s.data.map charToDigit).reverse))
  else none

/-- Substring test at the start of a character list. -/
def listStarts (hay sub : List Char) : Bool :=
  match sub, hay with
  | [], _ => true
  | _ :: _, [] => false
  | s :: ss, h :: hs => s == h && listStarts hs ss

/-- Model of `String.prototype.includes`. -/
def listContains (hay sub : List Char) : Bool :=
  listStarts hay sub ||
    (match hay with
     | [] => false
     | _ :: hs => listContains hs sub)

/-- A raw CSV cell value as seen by `normalizeRow` (`Record<string, any>`):
either a string (the usual case after Papa.parse) or an already-split
sequence of strings. -/
inductive RawValue where
  | str (s : String)
  | arr (l : List String)
deriving DecidableEq, Repr

/-- A raw record: the ordered header→value entries of one CSV row. -/
abbrev RawRecord := List (String × RawValue)

/-- Model of JavaScript `String(v)`: arrays join their elements with `,`. -/
def rawToString : RawValue → String
  | .str s => s
  | .arr l => joinSep "," l

/-- JavaScript truthiness of a raw value (`""` is falsy, arrays are truthy). -/
def rvTruthy : RawValue → Bool
  | .str s => s != ""
  | .arr _ => true

/-- Truthiness of an optional raw value (`undefined` is falsy). -/
def optTruthy : Option RawValue → Bool
  | none => false
  | some v => rvTruthy v

/-- The `lower` map of `normalizeRow`:
`Object.entries(row).map(([k,v]) => [k.toLowerCase().trim(), v])`. -/
def lowerMap (row : RawRecord) : RawRecord :=
  row.map (fun kv => (keyNorm kv.1, kv.2))

/-- Key lookup in the object built by `Object.fromEntries`: on duplicate
keys the last entry wins. -/
def objGet (m : RawRecord) (k : String) : Option RawValue :=
  List.lookup k m.reverse

/-- The `pick` helper of `normalizeRow`: try the candidate header names in
order and return the first value that is defined and non-blank after
trimming. -/
def pick (m : RawRecord) : List String → Option RawValue
  | [] => none
  | key :: rest =>
    match objGet m (jsToLower key) with
    | some v => if jsTrim (rawToString v) != "" then some v else pick m rest
    | none => pick m rest

/-- One canonical vocabulary entry (`type Vocab` in `src/App.tsx`). -/
structure Vocab where
  id : String
  zhTitle : Option String := none
  enTitle : Option String := none
  zhDef : Option String := none
  enDef : Option String := none
  category : Option String := none
  tags : Option (List String) := none
  exampleText : Option String := none
  details : Option String := none
  images : Option (List String) := none
  frequency : Option Nat := none
  addedAt : Option Nat := none
deriving DecidableEq, Repr

/-- Trimmed text field construction: `x ? String(x).trim() : undefined`. -/
def strField (o : Option RawValue) : Option String :=
  match o with
  | some v => if rvTruthy v then some (jsTrim (rawToString v)) else none
  | none => none

/-- Untrimmed text field construction: `x ? String(x) : undefined`. -/
def rawField (o : Option RawValue) : Option String :=
  match o with
  | some v => if rvTruthy v then some (rawToString v) else none
  | none => none

/-- Multi-valued field construction: split a string on the delimiter class,
pass an array through unchanged, and map `undefined` to `undefined`. -/
def listField (isD : Char → Bool) (o : Option RawValue) : Option (List String) :=
  match o with
  | some (.str s) => some (jsSplit isD s)
  | some (.arr l) => some l
  | none => none

def zhTitleAliases : List String := ["zh_title", "中文标题", "标题"]
def enTitleAliases : List String := ["en_title", "term_en", "term", "英文标题", "word"]
def zhDefAliases : List String := ["zh_def", "definition_cn", "中文释义", "释义"]
def enDefAliases : List String := ["en_def", "definition", "meaning", "英文释义"]
def categoryAliases : List String := ["category", "class", "type", "类别"]
def tagsAliases : List String := ["tags", "标签"]
def exampleAliases : List String := ["example", "例句"]
def detailsAliases : List String := ["details", "背景", "备注"]
def imagesAliases : List String := ["images", "图片"]
def frequencyAliases : List String := ["frequency", "freq", "权重"]

/-- The row normalizer of `src/App.tsx`.  `now` stands for `Date.now()`;
the random id suffix is an external source of entropy and is dropped from
the id model (no claim inspects id contents). -/
def normalizeRow (now : Nat) (row : RawRecord) (idx : Nat) : Option Vocab :=
  let lower := lowerMap row
  let zhTitle := pick lower zhTitleAliases
  let enTitle := pick lower enTitleAliases
  let zhDef := pick lower zhDefAliases
  let enDef := pick lower enDefAliases
  let category := pick lower categoryAliases
  let tagsRaw := pick lower tagsAliases
  let exampleV := pick lower exampleAliases
  let details := pick lower detailsAliases
  let imagesRaw := pick lower imagesAliases
  let frequency := (pick lower frequencyAliases).bind (fun v => strToNum (rawToString v))
  if !(optTruthy zhTitle || optTruthy zhDef) && !(optTruthy enTitle || optTruthy enDef) then
    none
  else
    some {
      id := numToStr now ++ "-" ++ numToStr idx
      zhTitle := strField zhTitle
      enTitle := strField enTitle
      zhDef := strField zhDef
      enDef := strField enDef
      category := strField category
      tags := listField isTagDelim tagsRaw
      exampleText := rawField exampleV
      details := rawField details
      images := listField isImgDelim imagesRaw
      frequency := frequency
      addedAt := some now
    }

/-- The import pipeline of `parseCSVText`: normalize each parsed record with
its row index and keep the non-null results.  The CSV text→record step is
the external parser. -/
def parseCSVText (now : Nat) (rows : List RawRecord) : List Vocab :=
  (rows.enum).filterMap (fun p => normalizeRow now p.2 p.1)

/-- One output row of `exportCSV`: every field gets a column, missing
fields become empty strings, multi-valued fields are joined with `;`. -/
def exportRow (v : Vocab) : RawRecord :=
  [("zh_title", .str (v.zhTitle.getD "")),
   ("en_title", .str (v.enTitle.getD "")),
   ("zh_def", .str (v.zhDef.getD "")),
   ("en_def", .str (v.enDef.getD "")),
   ("category", .str (v.category.getD "")),
   ("tags", .str (joinSep ";" (v.tags.getD []))),
   ("example", .str (v.exampleText.getD "")),
   ("details", .str (v.details.getD "")),
   ("images", .str (joinSep ";" (v.images.getD []))),
   ("frequency", .str (match v.frequency with | some n => numToStr n | none => ""))]

/-- The export serializer `exportCSV`, up to the external CSV text layer. -/
def exportCSV (data : List Vocab) : List RawRecord := data.map exportRow

/-- The sort keys of the main variant (`sortBy` state). -/
inductive SortKey where
  | alpha
  | recent
  | freq
deriving DecidableEq, Repr

/-- The transient query state consulted by the `filtered` derivation. -/
structure QueryState where
  query : String := ""
  category : String := "all"
  tag : String := "all"
  favOnly : Bool := false
  sortBy : SortKey := .alpha
deriving DecidableEq, Repr

/-- JavaScript `a || b` on an optional string. -/
def jsOrStr (a : Option String) (b : String) : String :=
  match a with
  | some s => if s != "" then s else b
  | none => b

/-- The comparison key of the alphabetical sort: `a.enTitle || a.zhTitle || ""`. -/
def titleKey (v : Vocab) : String := jsOrStr v.enTitle (jsOrStr v.zhTitle "")

/-- The searchable text of an entry: the defined, non-empty fields joined by
spaces, with the tag list itself joined by spaces. -/
def searchText (v : Vocab) : String :=
  joinSep " "
    ((([v.zhTitle, v.enTitle, v.zhDef, v.enDef, v.category, v.exampleText].map
        (fun o => o.getD "")) ++ [joinSep " " (v.tags.getD [])]).filter
      (fun s => s != ""))

/-- The text filter: case-insensitive substring search over `searchText`. -/
def textMatch (q : String) (v : Vocab) : Bool :=
  listContains (jsToLower (searchText v)).data (jsToLower q).data

/-- Comparator of the alphabetical sort (model of `localeCompare` ascending). -/
def alphaLe (a b : Vocab) : Bool := decide (titleKey a ≤ titleKey b)

/-- Comparator of the most-recent sort: `addedAt` descending, missing as 0. -/
def recentLe (a b : Vocab) : Bool := decide (b.addedAt.getD 0 ≤ a.addedAt.getD 0)

/-- Comparator of the frequency sort: `frequency` descending, missing as 0. -/
def freqLe (a b : Vocab) : Bool := decide (b.frequency.getD 0 ≤ a.frequency.getD 0)

/-- The stable sort step of the `filtered` derivation. -/
def sortStep : SortKey → List Vocab → List Vocab
  | .alpha, l => l.mergeSort alphaLe
  | .recent, l => l.mergeSort recentLe
  | .freq, l => l.mergeSort freqLe

/-- The filter part of the `filtered` derivation: text filter, category
filter, tag filter, favorites filter, in the source's order. -/
def filterChain (qs : QueryState) (favs : Finset String) (data : List Vocab) : List Vocab :=
  let a1 := if jsTrim qs.query != "" then data.filter (textMatch qs.query) else data
  let a2 := if qs.category != "all" then a1.filter (fun v => v.category.getD "" == qs.category) else a1
  let a3 := if qs.tag != "all" then a2.filter (fun v => (v.tags.getD []).any (fun t => t == qs.tag)) else a2
  if qs.favOnly then a3.filter (fun v => decide (v.id ∈ favs)) else a3

/-- The `filtered` view derivation of `src/App.tsx`: the filter chain
followed by a stable sort of a copy. -/
def filtered (qs : QueryState) (favs : Finset String) (data : List Vocab) : List Vocab :=
  sortStep qs.sortBy (filterChain qs favs data)

/-- The study list: `filtered.length ? filtered : data`. -/
def studyList (qs : QueryState) (favs : Finset String) (data : List Vocab) : List Vocab :=
  if filtered qs favs data = [] then data else filtered qs favs data

/-- The current flashcard: `studyList[idx % Math.max(1, studyList.length)] || null`.
JavaScript `%` on integers is truncated remainder, `Int.tmod`. -/
def currentCard (sl : List Vocab) (idx : Int) : Option Vocab :=
  sl.get? (Int.toNat (Int.tmod idx (max 1 (sl.length : Int))))

/-- The next-card cursor update: `(i + 1) % Math.max(1, len)`. -/
def nextIdx (c : Int) (len : Nat) : Int :=
  Int.tmod (c + 1) (max 1 (len : Int))

/-- The previous-card cursor update:
`(i - 1 + Math.max(1, len)) % Math.max(1, len)`. -/
def prevIdx (c : Int) (len : Nat) : Int :=
  Int.tmod (c - 1 + max 1 (len : Int)) (max 1 (len : Int))

/-- The persistence loader `load(k, fallback)`.  `store` models the string
contents of local storage, `parse` models the external `JSON.parse`, whose
failure (`none`) is swallowed by the `try/catch`; `getItem` returning `null`
or an empty (falsy) string also yields the fallback. -/
def load {α : Type} (parse : String → Option α) (store : String → Option String)
    (k : String) (fallback : α) : α :=
  match store k with
  | none => fallback
  | some raw =>
    if raw = "" then fallback
    else
      match parse raw with
      | some v => v
      | none => fallback

/-- The favorites toggle `toggleFav`: delete the id if present, add it if not. -/
def toggleFav (favs : Finset String) (id : String) : Finset String :=
  if id ∈ favs then favs.erase id else insert id favs

/-- Outcome of the `fetch`+`text` phase of a URL import: either the promise
chain rejects (network error, CORS), or a response arrives with an HTTP
status (`ok`) and a body that the external CSV parser turns into records. -/
inductive FetchOutcome where
  | reject
  | success (ok : Bool) (rows : List RawRecord)
deriving DecidableEq, Repr

/-- The URL import handler `handleURL`.  Returns the new collection and
whether the error notice was shown.  A rejection is caught (error toast,
collection untouched); an arriving response is imported without any check
of its HTTP status. -/
def handleURL (data : List Vocab) (now : Nat) (url : String) (o : FetchOutcome) :
    List Vocab × Bool :=
  if url = "" then (data, false)
  else
    match o with
    | .reject => (data, true)
    | .success _ rows => (parseCSVText now rows, false)

/-- Field-by-field equality of entries, excluding the regenerated `id` and
`addedAt`. -/
def FieldEq (v w : Vocab) : Prop :=
  v.zhTitle = w.zhTitle ∧ v.enTitle = w.enTitle ∧ v.zhDef = w.zhDef ∧
  v.enDef = w.enDef ∧ v.category = w.category ∧ v.tags = w.tags ∧
  v.exampleText = w.exampleText ∧ v.details = w.details ∧ v.images = w.images ∧
  v.frequency = w.frequency

/-- Normal form of a trimmed optional text field: absent, or trimmed and
non-empty (the shape `normalizeRow` itself produces). -/
def textNF : Option String → Bool
  | none => true
  | some s => (jsTrim s == s) && (s != "")

/-- Normal form of an untrimmed optional text field: absent, or non-blank
after trimming. -/
def freeNF : Option String → Bool
  | none => true
  | some s => jsTrim s != ""

/-- Normal form of one element of a multi-valued field: non-empty and free
of the field's delimiter characters. -/
def itemNF (isD : Char → Bool) (e : String) : Bool :=
  (e != "") && e.data.all (fun c => !(isD c))

/-- Normal form of an optional multi-valued field: absent, or a non-empty
list of delimiter-free non-empty items. -/
def listNF (isD : Char → Bool) : Option (List String) → Bool
  | none => true
  | some l => (!l.isEmpty) && l.all (itemNF isD)

/-- Normal form of a whole entry: every field in normal form and the
retention invariant satisfied (some title or definition present). -/
def normalEntry (v : Vocab) : Bool :=
  textNF v.zhTitle && textNF v.enTitle && textNF v.zhDef && textNF v.enDef &&
  textNF v.category && freeNF v.exampleText && freeNF v.details &&
  listNF isTagDelim v.tags && listNF isImgDelim v.images &&
  (v.zhTitle.isSome || v.zhDef.isSome || v.enTitle.isSome || v.enDef.isSome)

/-- The presence test of `pick` for a single candidate header name. -/
def pickTest (m : RawRecord) (a : String) : Bool :=
  match objGet m (jsToLower a) with
  | some v => jsTrim (rawToString v) != ""
  | none => false

/-- A sample entry used to instantiate universally quantified results. -/
def sampleZh : Vocab :=
  { id := "s1", zhTitle := some "演绎法", enTitle := some "Deduction", addedAt := some 5 }

/-- A query state whose text query matches nothing in the sample data. -/
def qsNoHit : QueryState := { query := "zzz" }

/-- A toy deserializer standing in for the external `JSON.parse`. -/
def demoParse : String → Option Nat := fun s => if s = "42" then some 42 else none

/-- A toy storage content map. -/
def demoStore : String → Option String := fun k => if k = "conf" then some "42" else none

/-- An entry with an embedded space in a tag: a legal Collection member
(the retention invariant holds) on which the CSV round trip is not the
identity on tags. -/
def vSpacedTag : Vocab := { id := "i", zhTitle := some "x", tags := some ["a b"] }

/-- A raw record whose tags and images cells both contain the Chinese
enumeration comma. -/
def rEnumComma : RawRecord :=
  [("zh_title", .str "x"), ("tags", .str "a、b"), ("images", .str "a、b")]

/-- The entry `normalizeRow` produces from `rEnumComma` at time 0, row 0. -/
def wEnumComma : Vocab :=
  { id := "0-0", zhTitle := some "x", tags := some ["a", "b"],
    images := some ["a、b"], addedAt := some 0 }

/-- A normal-form entry with several populated fields, used to instantiate
the round-trip result. -/
def vRound : Vocab :=
  { id := "r", zhTitle := some "演绎法", enTitle := some "Deduction",
    category := some "逻辑", tags := some ["哲学", "课堂"],
    exampleText := some "All men are mortal.", frequency := some 9,
    addedAt := some 5 }

/-- A raw record with only a category value: no title or definition on
either side, so the row must be dropped. -/
def rCatOnly : RawRecord := [("category", .str "逻辑")]

/-- A raw record whose header key differs from the canonical alias only by
letter case and surrounding whitespace. -/
def rUpperKey : RawRecord := [(" ZH_TITLE ", .str "演绎法")]

/-! Helper lemmas about the character-level models. -/

theorem charOfNat_toNat {n : Nat} (h : n.isValidChar) : (Char.ofNat n).toNat = n := by
  simp [Char.ofNat, h, Char.ofNatAux, Char.toNat]
  rfl

theorem toLower_toLower (c : Char) : c.toLower.toLower = c.toLower := by
  simp only [Char.toLower]
  by_cases h : 65 ≤ c.toNat ∧ c.toNat ≤ 90
  · rw [if_pos h]
    have ht : (Char.ofNat (c.toNat + 32)).toNat = c.toNat + 32 :=
      charOfNat_toNat (Or.inl (by omega))
    rw [if_neg (by omega)]
  · rw [if_neg h, if_neg h]

theorem isWS_toLower (c : Char) : isWS c.toLower = isWS c := by
  simp only [Char.toLower]
  by_cases h : 65 ≤ c.toNat ∧ c.toNat ≤ 90
  · rw [if_pos h]
    have ht : (Char.ofNat (c.toNat + 32)).toNat = c.toNat + 32 :=
      charOfNat_toNat (Or.inl (by omega))
    rw [Bool.eq_iff_iff]
    simp only [isWS, ht, Bool.or_eq_true, decide_eq_true_eq]
    omega
  · rw [if_neg h]

theorem dropWhile_dropWhile {α : Type} (p : α → Bool) :
    ∀ l : List α, List.dropWhile p (List.dropWhile p l) = List.dropWhile p l := by
  intro l
  induction l with
  | nil => rfl
  | cons c cs ih =>
    by_cases hp : p c = true
    · simp [List.dropWhile_cons, hp, ih]
    · simp [List.dropWhile_cons, hp]

theorem dropWhile_head_not {α : Type} {p : α → Bool} :
    ∀ {l c cs}, List.dropWhile p l = c :: cs → p c = false := by
  intro l
  induction l with
  | nil => intro c cs h; simp [List.dropWhile] at h
  | cons a tl ih =>
    intro c cs h
    rw [List.dropWhile_cons] at h
    split at h
    · exact ih h
    · cases h
      simp_all

theorem mem_of_mem_dropWhile {α : Type} {p : α → Bool} {l : List α} {c : α}
    (h : c ∈ List.dropWhile p l) : c ∈ l :=
  List.Sublist.mem h (List.IsSuffix.sublist (List.dropWhile_suffix p))

theorem mem_dropWhile_of_not {α : Type} {p : α → Bool} {c : α} :
    ∀ {l : List α}, c ∈ l → p c = false → c ∈ List.dropWhile p l := by
  intro l
  induction l with
  | nil => intro h; simp at h
  | cons a tl ih =>
    intro hc hpc
    rw [List.dropWhile_cons]
    by_cases ha : p a = true
    · rw [if_pos ha]
      rcases List.mem_cons.mp hc with h | h
      · subst h; rw [hpc] at ha; cases ha
      · exact ih h hpc
    · rw [if_neg ha]
      exact hc

theorem mem_trimList {l : List Char} {c : Char} (h : c ∈ trimList l) : c ∈ l := by
  unfold trimList at h
  rw [List.mem_reverse] at h
  have h2 := mem_of_mem_dropWhile h
  rw [List.mem_reverse] at h2
  exact mem_of_mem_dropWhile h2

theorem trimList_idem (l : List Char) : trimList (trimList l) = trimList l := by
  obtain ⟨s, hs⟩ := List.dropWhile_suffix (l := (List.dropWhile isWS l).reverse) (p := isWS)
  have hA : l.dropWhile isWS =
      (List.dropWhile isWS (List.dropWhile isWS l).reverse).reverse ++ s.reverse := by
    have h2 := congrArg List.reverse hs
    rw [List.reverse_append, List.reverse_reverse] at h2
    exact h2.symm
  have step1 : List.dropWhile isWS (List.dropWhile isWS (List.dropWhile isWS l).reverse).reverse
      = (List.dropWhile isWS (List.dropWhile isWS l).reverse).reverse := by
    cases hrev : (List.dropWhile isWS (List.dropWhile isWS l).reverse).reverse with
    | nil => rfl
    | cons c cs =>
      have hEq : List.dropWhile isWS l = c :: (cs ++ s.reverse) := by
        rw [hA, hrev]; rfl
      have hws : isWS c = false := dropWhile_head_not hEq
      rw [List.dropWhile_cons, hws]
      simp
  show ((List.dropWhile isWS (trimList l)).reverse.dropWhile isWS).reverse = trimList l
  unfold trimList
  rw [step1, List.reverse_reverse, dropWhile_dropWhile]

theorem trimList_ne_nil {l : List Char} {c : Char} (hc : c ∈ l) (hw : isWS c = false) :
    trimList l ≠ [] := by
  intro h
  unfold trimList at h
  rw [List.reverse_eq_nil_iff] at h
  rw [List.dropWhile_eq_nil_iff] at h
  have h1 : c ∈ List.dropWhile isWS l := mem_dropWhile_of_not hc hw
  have h2 : c ∈ (List.dropWhile isWS l).reverse := List.mem_reverse.mpr h1
  rw [h c h2] at hw
  cases hw

theorem jsTrim_ne_of_mem {s : String} {c : Char} (hc : c ∈ s.data) (hw : isWS c = false) :
    jsTrim s ≠ "" := by
  intro h
  have h2 := congrArg String.data h
  exact trimList_ne_nil hc hw h2

theorem jsTrim_eq_empty : jsTrim "" = "" := rfl

/-! Helper lemmas about the split/join and numeric string models. -/

theorem splitCore_ne_nil (isD : Char → Bool) : ∀ cs, splitCore isD cs ≠ [] := by
  intro cs
  cases cs with
  | nil => simp [splitCore]
  | cons c cs =>
    rw [splitCore]
    cases h : splitCore isD cs with
    | nil => simp
    | cons f fs => by_cases hc : isD c = true <;> simp [hc]

theorem splitCore_cons_not {isD : Char → Bool} {c : Char} (h : isD c = false)
    {cs : List Char} {f : List Char} {fs : List (List Char)}
    (hcs : splitCore isD cs = f :: fs) :
    splitCore isD (c :: cs) = (c :: f) :: fs := by
  rw [splitCore, hcs]
  simp [h]

theorem splitCore_cons_delim {isD : Char → Bool} {c : Char} (h : isD c = true)
    {cs : List Char} {f : List Char} {fs : List (List Char)}
    (hcs : splitCore isD cs = f :: fs) :
    splitCore isD (c :: cs) = [] :: f :: fs := by
  rw [splitCore, hcs]
  simp [h]

theorem splitCore_append_free {isD : Char → Bool} :
    ∀ {xs : List Char}, (∀ c ∈ xs, isD c = false) →
    ∀ {ys f fs}, splitCore isD ys = f :: fs →
    splitCore isD (xs ++ ys) = (xs ++ f) :: fs := by
  intro xs
  induction xs with
  | nil => intro _ ys f fs h; simpa using h
  | cons c xs ih =>
    intro hfree ys f fs h
    have hc : isD c = false := hfree c (List.mem_cons_self c xs)
    have hxs : ∀ x ∈ xs, isD x = false := fun x hx => hfree x (List.mem_cons_of_mem c hx)
    have := splitCore_cons_not hc (ih hxs h)
    simpa using this

theorem splitCore_free {isD : Char → Bool} {xs : List Char}
    (hxs : ∀ c ∈ xs, isD c = false) : splitCore isD xs = [xs] := by
  have h0 : splitCore isD ([] : List Char) = [] :: [] := rfl
  have := splitCore_append_free hxs h0
  simpa using this

theorem jsSplit_join {isD : Char → Bool} (hsemi : isD ';' = true) :
    ∀ {l : List String}, l ≠ [] →
    (∀ e ∈ l, e ≠ "" ∧ ∀ c ∈ e.data, isD c = false) →
    jsSplit isD (joinSep ";" l) = l := by
  intro l
  induction l with
  | nil => intro h; cases h rfl
  | cons e l ih =>
    intro _ hnf
    have he : e ≠ "" ∧ ∀ c ∈ e.data, isD c = false := hnf e (List.mem_cons_self e l)
    cases l with
    | nil =>
      show jsSplit isD e = [e]
      unfold jsSplit
      rw [splitCore_free he.2]
      simp [he.1]
    | cons r rest =>
      have hl : r :: rest ≠ [] := by simp
      have hnf2 : ∀ x ∈ r :: rest, x ≠ "" ∧ ∀ c ∈ x.data, isD c = false :=
        fun x hx => hnf x (List.mem_cons_of_mem e hx)
      have hstep : joinSep ";" (e :: r :: rest) = e ++ ";" ++ joinSep ";" (r :: rest) := rfl
      obtain ⟨f, fs, hffs⟩ := List.exists_cons_of_ne_nil
        (splitCore_ne_nil isD (joinSep ";" (r :: rest)).data)
      have hdata : (e ++ ";" ++ joinSep ";" (r :: rest)).data
          = e.data ++ (';' :: (joinSep ";" (r :: rest)).data) := by
        rw [String.data_append, String.data_append]
        simp
      have hsc : splitCore isD (e ++ ";" ++ joinSep ";" (r :: rest)).data
          = (e.data ++ []) :: f :: fs := by
        rw [hdata]
        exact splitCore_append_free he.2 (splitCore_cons_delim hsemi hffs)
      have htail : List.filter (fun t => t != "")
          (List.map (fun l => String.mk l) (f :: fs)) = r :: rest := by
        have h2 := ih hl hnf2
        unfold jsSplit at h2
        rw [hffs] at h2
        exact h2
      unfold jsSplit
      rw [hstep, hsc, List.append_nil, List.map_cons]
      rw [show String.mk e.data = e from rfl]
      rw [List.filter_cons, if_pos (by simpa using he.1)]
      rw [htail]

theorem charToDigit_digitToChar {d : Nat} (hd : d < 10) :
    charToDigit (digitToChar d) = d := by
  interval_cases d <;> decide

theorem isDigit_digitToChar {d : Nat} (hd : d < 10) :
    (digitToChar d).isDigit = true := by
  interval_cases d <;> decide

theorem isWS_digitToChar {d : Nat} (hd : d < 10) :
    isWS (digitToChar d) = false := by
  interval_cases d <;> decide

theorem numToStr_data (n : Nat) (hn : n ≠ 0) :
    (numToStr n).data = ((Nat.digits 10 n).map digitToChar).reverse := by
  unfold numToStr
  rw [if_neg hn]

theorem mem_numToStr_digit {n : Nat} (hn : n ≠ 0) {c : Char}
    (hc : c ∈ (numToStr n).data) : ∃ d, d < 10 ∧ c = digitToChar d := by
  rw [numToStr_data n hn, List.mem_reverse] at hc
  obtain ⟨d, hd, rfl⟩ := List.mem_map.mp hc
  exact ⟨d, Nat.digits_lt_base (by norm_num) hd, rfl⟩

theorem strToNum_numToStr (n : Nat) : strToNum (numToStr n) = some n := by
  by_cases hn : n = 0
  · subst hn; decide
  · have hne : numToStr n ≠ "" := by
      intro h
      have h2 := congrArg String.data h
      rw [numToStr_data n hn] at h2
      simp only [List.reverse_eq_nil_iff, List.map_eq_nil_iff] at h2
      exact (Nat.digits_ne_nil_iff_ne_zero.mpr hn) h2
    have hall : (numToStr n).data.all (fun c => c.isDigit) = true := by
      rw [List.all_eq_true]
      intro c hc
      obtain ⟨d, hd, rfl⟩ := mem_numToStr_digit hn hc
      exact isDigit_digitToChar hd
    unfold strToNum
    rw [if_pos ⟨hne, hall⟩]
    congr 1
    rw [numToStr_data n hn, List.map_reverse, List.reverse_reverse, List.map_map]
    have h3 : List.map (charToDigit ∘ digitToChar) (Nat.digits 10 n)
        = List.map id (Nat.digits 10 n) :=
      List.map_congr_left
        (fun d hd => charToDigit_digitToChar (Nat.digits_lt_base (by norm_num) hd))
    rw [h3, List.map_id]
    exact Nat.ofDigits_digits 10 n

theorem jsTrim_numToStr_ne (n : Nat) : jsTrim (numToStr n) ≠ "" := by
  by_cases hn : n = 0
  · subst hn; decide
  · obtain ⟨c, hc⟩ := List.exists_mem_of_ne_nil (numToStr n).data (by
      intro h
      rw [numToStr_data n hn] at h
      simp only [List.reverse_eq_nil_iff, List.map_eq_nil_iff] at h
      exact (Nat.digits_ne_nil_iff_ne_zero.mpr hn) h)
    obtain ⟨d, hd, rfl⟩ := mem_numToStr_digit hn hc
    exact jsTrim_ne_of_mem hc (isWS_digitToChar hd)

theorem joinSep_trim_ne {l : List String} (hl : l ≠ [])
    (hnf : ∀ e ∈ l, e ≠ "" ∧ ∀ c ∈ e.data, isWS c = false) :
    jsTrim (joinSep ";" l) ≠ "" := by
  obtain ⟨e, l', rfl⟩ := List.exists_cons_of_ne_nil hl
  have he := hnf e (List.mem_cons_self e l')
  obtain ⟨c, cs, hcd⟩ : ∃ c cs, e.data = c :: cs := by
    cases hd : e.data with
    | nil =>
      exact absurd (show e = "" from String.ext hd) he.1
    | cons c cs => exact ⟨c, cs, rfl⟩
  have hcmem : c ∈ e.data := by rw [hcd]; exact List.mem_cons_self c cs
  have hws : isWS c = false := he.2 c hcmem
  have hmem : c ∈ (joinSep ";" (e :: l')).data := by
    cases l' with
    | nil => exact hcmem
    | cons r rest =>
      rw [show joinSep ";" (e :: r :: rest) = e ++ ";" ++ joinSep ";" (r :: rest) from rfl]
      rw [String.data_append, String.data_append]
      exact List.mem_append_left _ (List.mem_append_left _ hcmem)
  exact jsTrim_ne_of_mem hmem hws

/-! Helper lemmas about `pick` and key normalization. -/

theorem pick_eq_find (m : RawRecord) :
    ∀ cands, pick m cands =
      (cands.find? (fun a => pickTest m a)).bind (fun a => objGet m (jsToLower a)) := by
  intro cands
  induction cands with
  | nil => rfl
  | cons key rest ih =>
    cases hk : objGet m (jsToLower key) with
    | none =>
      have ht : pickTest m key = false := by unfold pickTest; rw [hk]
      simp only [pick, hk, List.find?_cons, ht]
      exact ih
    | some w =>
      by_cases hb : (jsTrim (rawToString w) != "") = true
      · have ht : pickTest m key = true := by unfold pickTest; rw [hk]; exact hb
        simp only [pick, hk, List.find?_cons, ht, hb, if_true]
        simp [hk]
      · have hb2 : (jsTrim (rawToString w) != "") = false := by simpa using hb
        have ht : pickTest m key = false := by unfold pickTest; rw [hk]; exact hb2
        simp only [pick, hk, List.find?_cons, ht, hb2, Bool.false_eq_true, if_false]
        exact ih

theorem pick_some_truthy {m : RawRecord} :
    ∀ {cands v}, pick m cands = some v → rvTruthy v = true := by
  intro cands
  induction cands with
  | nil => intro v h; simp [pick] at h
  | cons key rest ih =>
    intro v h
    rw [pick] at h
    cases hk : objGet m (jsToLower key) with
    | none =>
      simp only [hk] at h
      exact ih h
    | some w =>
      simp only [hk] at h
      split at h
      case isTrue hcond =>
        cases h
        cases v with
        | arr l => rfl
        | str s =>
          show (s != "") = true
          simp only [bne_iff_ne, ne_eq]
          intro hs
          subst hs
          exact absurd hcond (by decide)
      case isFalse hcond => exact ih h

theorem keyNorm_idem (k : String) : keyNorm (keyNorm k) = keyNorm k := by
  unfold keyNorm jsTrim jsToLower
  apply String.ext
  show trimList ((trimList (k.data.map Char.toLower)).map Char.toLower)
      = trimList (k.data.map Char.toLower)
  have h1 : (trimList (k.data.map Char.toLower)).map Char.toLower
      = trimList (k.data.map Char.toLower) := by
    have hpt : ∀ c ∈ trimList (k.data.map Char.toLower), Char.toLower c = id c := by
      intro c hc
      obtain ⟨c0, _, rfl⟩ := List.mem_map.mp (mem_trimList hc)
      exact toLower_toLower c0
    rw [List.map_congr_left hpt, List.map_id]
  rw [h1]
  exact trimList_idem _

theorem lowerMap_lowerMap (r : RawRecord) : lowerMap (lowerMap r) = lowerMap r := by
  unfold lowerMap
  rw [List.map_map]
  exact List.map_congr_left (fun kv _ => by simp [Function.comp, keyNorm_idem])

theorem length_filterMap_countP {α β : Type} (f : α → Option β) :
    ∀ l : List α, (l.filterMap f).length = l.countP (fun a => (f a).isSome) := by
  intro l
  induction l with
  | nil => rfl
  | cons a l ih =>
    rw [List.filterMap_cons, List.countP_cons]
    cases h : f a with
    | none => simp [h, ih]
    | some b => simp [h, ih]

/-- Unfolding of `normalizeRow` with the let-bindings substituted. -/
theorem normalizeRow_eq (now : Nat) (row : RawRecord) (idx : Nat) :
    normalizeRow now row idx =
      if (!(optTruthy (pick (lowerMap row) zhTitleAliases) ||
            optTruthy (pick (lowerMap row) zhDefAliases)) &&
          !(optTruthy (pick (lowerMap row) enTitleAliases) ||
            optTruthy (pick (lowerMap row) enDefAliases))) = true then
        none
      else
        some {
          id := numToStr now ++ "-" ++ numToStr idx
          zhTitle := strField (pick (lowerMap row) zhTitleAliases)
          enTitle := strField (pick (lowerMap row) enTitleAliases)
          zhDef := strField (pick (lowerMap row) zhDefAliases)
          enDef := strField (pick (lowerMap row) enDefAliases)
          category := strField (pick (lowerMap row) categoryAliases)
          tags := listField isTagDelim (pick (lowerMap row) tagsAliases)
          exampleText := rawField (pick (lowerMap row) exampleAliases)
          details := rawField (pick (lowerMap row) detailsAliases)
          images := listField isImgDelim (pick (lowerMap row) imagesAliases)
          frequency := (pick (lowerMap row) frequencyAliases).bind
            (fun v => strToNum (rawToString v))
          addedAt := some now } := rfl

/-! Claim theorems. -/

theorem ite_filter_sublist {α : Type} (c : Prop) [Decidable c] (p : α → Bool) (l : List α) :
    (if c then l.filter p else l).Sublist l := by
  split
  · exact List.filter_sublist l
  · exact List.Sublist.refl l

/-- C2 counterexample: a URL import that fails with an HTTP error status
(404: the promise chain does not reject, `ok` is false, the body parses to
no valid rows) is not caught — no error notice is shown and the in-memory
Collection is replaced, here by the empty list. -/
theorem spec_C2_counterexample :
    handleURL [sampleZh] 0 "http://data.example/missing.csv" (.success false []) = ([], false) ∧
    ([] : List Vocab) ≠ [sampleZh] := by
  constructor
  · rfl
  · decide

/-- C2 amended: only URL-import failures that reject the promise chain
(network errors, CORS) are caught by `handleURL`; for those the error
notice is shown and the Collection is left unchanged.  An HTTP error
response (e.g. 404) is not detected: its body is imported as CSV. -/
theorem spec_C2_amended (data : List Vocab) (now : Nat) (url : String) (h : url ≠ "") :
    handleURL data now url .reject = (data, true) := by
  unfold handleURL
  rw [if_neg h]

/-- C2 witness: the amended theorem at a concrete state and URL. -/
theorem spec_C2_witness :
    ("http://data.example/v.csv" : String) ≠ "" ∧
    handleURL [sampleZh] 0 "http://data.example/v.csv" .reject = ([sampleZh], true) :=
  ⟨by decide, spec_C2_amended [sampleZh] 0 "http://data.example/v.csv" (by decide)⟩

/-- C3: `normalizeRow` returns null exactly when neither a Chinese
title-or-definition nor an English title-or-definition resolves to a
non-blank value; and the import pipeline simply keeps the non-null results
(its length is the count of rows whose normalization succeeds), so null
rows are dropped without any error path. -/
theorem spec_C3 (now : Nat) (row : RawRecord) (idx : Nat) (rows : List RawRecord) :
    (normalizeRow now row idx = none ↔
      ¬((pick (lowerMap row) zhTitleAliases).isSome = true ∨
          (pick (lowerMap row) zhDefAliases).isSome = true) ∧
      ¬((pick (lowerMap row) enTitleAliases).isSome = true ∨
          (pick (lowerMap row) enDefAliases).isSome = true)) ∧
    (parseCSVText now rows).length
      = (rows.enum).countP (fun p => (normalizeRow now p.2 p.1).isSome) := by
  constructor
  · have hopt : ∀ cands, optTruthy (pick (lowerMap row) cands)
        = (pick (lowerMap row) cands).isSome := by
      intro cands
      cases hp : pick (lowerMap row) cands with
      | none => rfl
      | some v => simp [optTruthy, pick_some_truthy hp, Option.isSome]
    have key : normalizeRow now row idx = none ↔
        (optTruthy (pick (lowerMap row) zhTitleAliases) = false ∧
          optTruthy (pick (lowerMap row) zhDefAliases) = false) ∧
        (optTruthy (pick (lowerMap row) enTitleAliases) = false ∧
          optTruthy (pick (lowerMap row) enDefAliases) = false) := by
      rw [normalizeRow_eq]
      split
      case isTrue hB =>
        simp only [Bool.and_eq_true, Bool.not_eq_true', Bool.or_eq_false_iff] at hB
        exact iff_of_true rfl hB
      case isFalse hB =>
        constructor
        · intro h; exact absurd h (by simp)
        · intro h
          exfalso
          apply hB
          simp only [Bool.and_eq_true, Bool.not_eq_true', Bool.or_eq_false_iff]
          exact h
    rw [key, ← hopt zhTitleAliases, ← hopt zhDefAliases, ← hopt enTitleAliases,
      ← hopt enDefAliases]
    constructor
    · intro h
      constructor
      · intro hor
        rcases hor with h1 | h1
        · rw [h.1.1] at h1; cases h1
        · rw [h.1.2] at h1; cases h1
      · intro hor
        rcases hor with h1 | h1
        · rw [h.2.1] at h1; cases h1
        · rw [h.2.2] at h1; cases h1
    · intro h
      refine ⟨⟨?_, ?_⟩, ?_, ?_⟩
      · cases hb : optTruthy (pick (lowerMap row) zhTitleAliases) with
        | false => rfl
        | true => exact absurd (Or.inl hb) h.1
      · cases hb : optTruthy (pick (lowerMap row) zhDefAliases) with
        | false => rfl
        | true => exact absurd (Or.inr hb) h.1
      · cases hb : optTruthy (pick (lowerMap row) enTitleAliases) with
        | false => rfl
        | true => exact absurd (Or.inl hb) h.2
      · cases hb : optTruthy (pick (lowerMap row) enDefAliases) with
        | false => rfl
        | true => exact absurd (Or.inr hb) h.2
  · unfold parseCSVText
    exact length_filterMap_countP _ _

/-- C4: header keys are consulted only through the lower-cased, trimmed
key map — normalizing all keys of a record beforehand does not change the
result of `normalizeRow` — and `pick` resolves each field to the value of
the first alias in the list whose value is present and non-blank after
trimming, ignoring all later aliases. -/
theorem spec_C4 (now : Nat) (row : RawRecord) (idx : Nat) (cands : List String) :
    normalizeRow now (lowerMap row) idx = normalizeRow now row idx ∧
    pick (lowerMap row) cands
      = (cands.find? (fun a => pickTest (lowerMap row) a)).bind
          (fun a => objGet (lowerMap row) (jsToLower a)) := by
  constructor
  · unfold normalizeRow
    rw [lowerMap_lowerMap]
  · exact pick_eq_find _ _

/-- C6: the derived view is a permutation of a sublist of the Collection —
every entry of the view is an entry of the Collection, and filtering only
narrows, never adds, under any combination of text, category, tag,
favorites filters and sort key. -/
theorem spec_C6 (qs : QueryState) (favs : Finset String) (data : List Vocab) :
    (∃ l, List.Sublist l data ∧ (filtered qs favs data).Perm l) ∧
    ∀ v ∈ filtered qs favs data, v ∈ data := by
  have hsub : (filterChain qs favs data).Sublist data := by
    simp only [filterChain]
    exact (ite_filter_sublist _ _ _).trans
      ((ite_filter_sublist _ _ _).trans
        ((ite_filter_sublist _ _ _).trans (ite_filter_sublist _ _ _)))
  have hperm : (filtered qs favs data).Perm (filterChain qs favs data) := by
    unfold filtered
    cases qs.sortBy <;> exact List.mergeSort_perm _ _
  refine ⟨⟨filterChain qs favs data, hsub, hperm⟩, ?_⟩
  intro v hv
  exact hsub.subset (hperm.mem_iff.mp hv)

/-- C7: the study list is the derived view when that view is non-empty and
falls back to the full Collection when the view is empty; it is never
empty while the Collection is non-empty. -/
theorem spec_C7 (qs : QueryState) (favs : Finset String) (data : List Vocab) :
    (filtered qs favs data ≠ [] → studyList qs favs data = filtered qs favs data) ∧
    (filtered qs favs data = [] → studyList qs favs data = data) ∧
    (data ≠ [] → studyList qs favs data ≠ []) := by
  unfold studyList
  by_cases h : filtered qs favs data = []
  · rw [if_pos h]
    exact ⟨fun hne => absurd h hne, fun _ => rfl, fun hd => hd⟩
  · rw [if_neg h]
    exact ⟨fun _ => rfl, fun he => absurd he h, fun _ => h⟩

/-- C7 witness: a non-empty Collection whose view under a miss-everything
query is empty still yields a non-empty study list. -/
theorem spec_C7_witness :
    [sampleZh] ≠ ([] : List Vocab) ∧ studyList qsNoHit ∅ [sampleZh] ≠ [] :=
  ⟨by decide, (spec_C7 qsNoHit ∅ [sampleZh]).2.2 (by decide)⟩

/-- C8: `load` returns the fallback when the key is absent, returns the
fallback when the stored text fails to deserialize (the failure is
swallowed, `load` still returns normally), and returns the deserialized
value when the stored text is non-empty and well-formed. -/
theorem spec_C8 {α : Type} (parse : String → Option α) (store : String → Option String)
    (k : String) (fb : α) :
    (store k = none → load parse store k fb = fb) ∧
    (∀ raw, store k = some raw → parse raw = none → load parse store k fb = fb) ∧
    (∀ raw v, store k = some raw → raw ≠ "" → parse raw = some v →
      load parse store k fb = v) := by
  refine ⟨?_, ?_, ?_⟩
  · intro h
    unfold load
    rw [h]
  · intro raw h hp
    unfold load
    simp only [h]
    by_cases hr : raw = ""
    · rw [if_pos hr]
    · rw [if_neg hr]
      simp only [hp]
  · intro raw v h hr hp
    unfold load
    simp only [h]
    rw [if_neg hr]
    simp only [hp]

/-- C8 witness: the well-formed case at a concrete store and deserializer,
with the absent-key and malformed hypotheses discharged concretely. -/
theorem spec_C8_witness :
    demoStore "conf" = some "42" ∧ ("42" : String) ≠ "" ∧ demoParse "42" = some 42 ∧
    load demoParse demoStore "conf" 0 = 42 :=
  ⟨rfl, by decide, rfl,
    (spec_C8 demoParse demoStore "conf" 0).2.2 "42" 42 rfl (by decide) rfl⟩

/-- C9: toggling a favorite twice restores the set, a single toggle flips
exactly the toggled id's membership, and every other id's membership is
unchanged. -/
theorem spec_C9 (F : Finset String) (x : String) :
    toggleFav (toggleFav F x) x = F ∧
    (x ∈ toggleFav F x ↔ x ∉ F) ∧
    ∀ y, y ≠ x → (y ∈ toggleFav F x ↔ y ∈ F) := by
  by_cases hx : x ∈ F
  · have h1 : toggleFav F x = F.erase x := if_pos hx
    have h2 : x ∉ F.erase x := Finset.not_mem_erase x F
    refine ⟨?_, ?_, ?_⟩
    · rw [h1]
      unfold toggleFav
      rw [if_neg h2]
      exact Finset.insert_erase hx
    · rw [h1]
      simp [h2, hx]
    · intro y hy
      rw [h1, Finset.mem_erase]
      simp [hy]
  · have h1 : toggleFav F x = insert x F := if_neg hx
    refine ⟨?_, ?_, ?_⟩
    · rw [h1]
      unfold toggleFav
      rw [if_pos (Finset.mem_insert_self x F)]
      exact Finset.erase_insert hx
    · rw [h1]
      simp [hx]
    · intro y hy
      rw [h1, Finset.mem_insert]
      simp [hy]

/-- C9 witness: the involution and the other-id preservation at concrete
sets and ids. -/
theorem spec_C9_witness :
    toggleFav (toggleFav {"a"} "b") "b" = {"a"} ∧
    (("a" : String) ≠ "b" ∧ (("a" ∈ toggleFav {"a"} "b") ↔ "a" ∈ ({"a"} : Finset String))) :=
  ⟨(spec_C9 {"a"} "b").1, by decide, (spec_C9 {"a"} "b").2.2 "a" (by decide)⟩

theorem filtered_nil (qs : QueryState) (favs : Finset String) :
    filtered qs favs [] = [] := by
  have hchain : filterChain qs favs [] = [] := by
    simp [filterChain]
  unfold filtered
  rw [hchain]
  cases qs.sortBy <;> simp [sortStep]

theorem studyList_nil_iff (qs : QueryState) (favs : Finset String) (data : List Vocab) :
    studyList qs favs data = [] ↔ data = [] := by
  constructor
  · intro h
    unfold studyList at h
    split at h
    · exact h
    · exact absurd h (by assumption)
  · intro h
    subst h
    unfold studyList
    rw [filtered_nil]
    simp

/-- C10: with a non-negative cursor, the selected position
`cursor % max(1, length)` is a valid index whenever the study list is
non-empty; the next and previous cursor updates land in `[0, max 1 length)`;
and the current card is null exactly when the Collection is empty. -/
theorem spec_C10 (qs : QueryState) (favs : Finset String) (data : List Vocab)
    (c : Int) (hc : 0 ≤ c) :
    (studyList qs favs data ≠ [] →
      Int.toNat (Int.tmod c (max 1 ((studyList qs favs data).length : Int)))
        < (studyList qs favs data).length) ∧
    (0 ≤ nextIdx c (studyList qs favs data).length ∧
      nextIdx c (studyList qs favs data).length
        < max 1 ((studyList qs favs data).length : Int)) ∧
    (0 ≤ prevIdx c (studyList qs favs data).length ∧
      prevIdx c (studyList qs favs data).length
        < max 1 ((studyList qs favs data).length : Int)) ∧
    (currentCard (studyList qs favs data) c = none ↔ data = []) := by
  have hm : (0 : Int) < max 1 ((studyList qs favs data).length : Int) := by
    have := le_max_left (1 : Int) ((studyList qs favs data).length : Int)
    omega
  have hbound : studyList qs favs data ≠ [] →
      Int.toNat (Int.tmod c (max 1 ((studyList qs favs data).length : Int)))
        < (studyList qs favs data).length := by
    intro hne
    have hlen : 0 < (studyList qs favs data).length := List.length_pos.mpr hne
    have h0 : 0 ≤ Int.tmod c (max 1 ((studyList qs favs data).length : Int)) :=
      Int.tmod_nonneg _ hc
    have h1 : Int.tmod c (max 1 ((studyList qs favs data).length : Int))
        < max 1 ((studyList qs favs data).length : Int) := Int.tmod_lt_of_pos _ hm
    omega
  refine ⟨hbound, ⟨?_, ?_⟩, ⟨?_, ?_⟩, ?_⟩
  · exact Int.tmod_nonneg _ (by omega)
  · exact Int.tmod_lt_of_pos _ hm
  · exact Int.tmod_nonneg _ (by omega)
  · exact Int.tmod_lt_of_pos _ hm
  · constructor
    · intro h
      by_contra hd
      have hne : studyList qs favs data ≠ [] :=
        fun hs => hd ((studyList_nil_iff qs favs data).mp hs)
      have hidx := hbound hne
      unfold currentCard at h
      rw [List.get?_eq_none] at h
      omega
    · intro h
      have hsl : studyList qs favs data = [] := (studyList_nil_iff qs favs data).mpr h
      rw [hsl]
      unfold currentCard
      exact List.get?_eq_none.mpr (by simp)

/-- C10 witness: the null-card characterization at a concrete state and a
concrete non-negative cursor. -/
theorem spec_C10_witness :
    (0 : Int) ≤ 3 ∧
    (currentCard (studyList {} ∅ [sampleZh]) 3 = none ↔ [sampleZh] = ([] : List Vocab)) :=
  ⟨by decide, (spec_C10 {} ∅ [sampleZh] 3 (by decide)).2.2.2⟩

/-- C5 counterexample: the delimiter sets of the tags split and the images
split are not the same.  On the same raw cell text, the Chinese
enumeration comma separates tags but does not separate images. -/
theorem spec_C5_counterexample :
    (normalizeRow 0 rEnumComma 0).map Vocab.tags = some (some ["a", "b"]) ∧
    (normalizeRow 0 rEnumComma 0).map Vocab.images = some (some ["a、b"]) ∧
    (["a、b"] : List String) ≠ ["a", "b"] := by
  refine ⟨by decide, by decide, by decide⟩

/-- C5 amended: for every retained entry, the tags field is the raw tags
value split on `{';', ',', '，', '、', whitespace}` with empty fragments
discarded (arrays passed through), while the images field is split on the
smaller set `{';', ',', '，', whitespace}` — the Chinese enumeration comma
`、` belongs to the tags delimiter set only. -/
theorem spec_C5_amended (now : Nat) (row : RawRecord) (idx : Nat) (v : Vocab)
    (h : normalizeRow now row idx = some v) :
    v.tags = listField isTagDelim (pick (lowerMap row) tagsAliases) ∧
    v.images = listField isImgDelim (pick (lowerMap row) imagesAliases) ∧
    isTagDelim '、' = true ∧ isImgDelim '、' = false := by
  rw [normalizeRow_eq] at h
  split at h
  · cases h
  · cases h
    exact ⟨rfl, rfl, by decide, by decide⟩

/-- C5 witness: the amended theorem at the concrete record above, with the
hypothesis discharged by evaluation. -/
theorem spec_C5_witness :
    normalizeRow 0 rEnumComma 0 = some wEnumComma ∧
    wEnumComma.tags = listField isTagDelim (pick (lowerMap rEnumComma) tagsAliases) ∧
    wEnumComma.images = listField isImgDelim (pick (lowerMap rEnumComma) imagesAliases) :=
  ⟨by decide, (spec_C5_amended 0 rEnumComma 0 wEnumComma (by decide)).1,
    (spec_C5_amended 0 rEnumComma 0 wEnumComma (by decide)).2.1⟩

/-! Round-trip lemmas: `pick` applied to the columns of an exported row. -/

theorem pick_cons_some {m : RawRecord} {key : String} {rest : List String} {v : RawValue}
    (h : objGet m (jsToLower key) = some v) :
    pick m (key :: rest)
      = if jsTrim (rawToString v) != "" then some v else pick m rest := by
  simp only [pick, h]

theorem pick_cons_none {m : RawRecord} {key : String} {rest : List String}
    (h : objGet m (jsToLower key) = none) :
    pick m (key :: rest) = pick m rest := by
  simp only [pick, h]

theorem strField_map_str {o : Option String} (h : textNF o = true) :
    strField (o.map RawValue.str) = o := by
  cases o with
  | none => rfl
  | some s =>
    simp only [textNF, Bool.and_eq_true, beq_iff_eq, bne_iff_ne, ne_eq] at h
    simp only [Option.map_some', strField, rvTruthy]
    rw [if_pos (by simpa using h.2)]
    rw [show rawToString (RawValue.str s) = s from rfl, h.1]

theorem rawField_map_str {o : Option String} (h : freeNF o = true) :
    rawField (o.map RawValue.str) = o := by
  cases o with
  | none => rfl
  | some s =>
    simp only [freeNF, bne_iff_ne, ne_eq] at h
    have hs : s ≠ "" := by
      intro hs
      subst hs
      exact h rfl
    simp only [Option.map_some', rawField, rvTruthy]
    rw [if_pos (by simpa using hs)]
    rfl

theorem optTruthy_map_str {o : Option String} (h : textNF o = true) :
    optTruthy (o.map RawValue.str) = o.isSome := by
  cases o with
  | none => rfl
  | some s =>
    simp only [textNF, Bool.and_eq_true, beq_iff_eq, bne_iff_ne, ne_eq] at h
    simp only [Option.map_some', optTruthy, rvTruthy, Option.isSome]
    simpa using h.2

theorem isWS_false_of_tagDelim {c : Char} (h : isTagDelim c = false) : isWS c = false := by
  simp only [isTagDelim, Bool.or_eq_false_iff] at h
  exact h.2

theorem isWS_false_of_imgDelim {c : Char} (h : isImgDelim c = false) : isWS c = false := by
  simp only [isImgDelim, Bool.or_eq_false_iff] at h
  exact h.2

theorem listNF_unpack {isD : Char → Bool} {l : List String}
    (h : listNF isD (some l) = true) :
    l ≠ [] ∧ ∀ e ∈ l, e ≠ "" ∧ ∀ c ∈ e.data, isD c = false := by
  simp only [listNF, Bool.and_eq_true, Bool.not_eq_true'] at h
  constructor
  · intro hnil
    subst hnil
    simp at h
  · intro e he
    have h2 := (List.all_eq_true.mp h.2) e he
    simp only [itemNF, Bool.and_eq_true, bne_iff_ne, ne_eq] at h2
    refine ⟨h2.1, ?_⟩
    intro c hc
    have h3 := (List.all_eq_true.mp h2.2) c hc
    simpa using h3

theorem pick_export_zhTitle {v : Vocab} (h : textNF v.zhTitle = true) :
    pick (lowerMap (exportRow v)) zhTitleAliases = v.zhTitle.map RawValue.str := by
  have h1 : objGet (lowerMap (exportRow v)) (jsToLower "zh_title")
      = some (RawValue.str (v.zhTitle.getD "")) := rfl
  have h2 : objGet (lowerMap (exportRow v)) (jsToLower "中文标题") = none := rfl
  have h3 : objGet (lowerMap (exportRow v)) (jsToLower "标题") = none := rfl
  rw [show zhTitleAliases = ["zh_title", "中文标题", "标题"] from rfl]
  rw [pick_cons_some h1, pick_cons_none h2, pick_cons_none h3]
  cases hz : v.zhTitle with
  | none =>
    simp [pick]
    rfl
  | some s =>
    simp only [textNF, hz, Bool.and_eq_true, beq_iff_eq, bne_iff_ne, ne_eq] at h
    simp only [Option.getD_some, Option.map_some']
    rw [show rawToString (RawValue.str s) = s from rfl, h.1]
    rw [if_pos (by simpa using h.2)]

theorem pick_export_enTitle {v : Vocab} (h : textNF v.enTitle = true) :
    pick (lowerMap (exportRow v)) enTitleAliases = v.enTitle.map RawValue.str := by
  have h1 : objGet (lowerMap (exportRow v)) (jsToLower "en_title")
      = some (RawValue.str (v.enTitle.getD "")) := rfl
  have h2 : objGet (lowerMap (exportRow v)) (jsToLower "term_en") = none := rfl
  have h3 : objGet (lowerMap (exportRow v)) (jsToLower "term") = none := rfl
  have h4 : objGet (lowerMap (exportRow v)) (jsToLower "英文标题") = none := rfl
  have h5 : objGet (lowerMap (exportRow v)) (jsToLower "word") = none := rfl
  rw [show enTitleAliases = ["en_title", "term_en", "term", "英文标题", "word"] from rfl]
  rw [pick_cons_some h1, pick_cons_none h2, pick_cons_none h3, pick_cons_none h4,
    pick_cons_none h5]
  cases hz : v.enTitle with
  | none =>
    simp [pick]
    rfl
  | some s =>
    simp only [textNF, hz, Bool.and_eq_true, beq_iff_eq, bne_iff_ne, ne_eq] at h
    simp only [Option.getD_some, Option.map_some']
    rw [show rawToString (RawValue.str s) = s from rfl, h.1]
    rw [if_pos (by simpa using h.2)]

theorem pick_export_zhDef {v : Vocab} (h : textNF v.zhDef = true) :
    pick (lowerMap (exportRow v)) zhDefAliases = v.zhDef.map RawValue.str := by
  have h1 : objGet (lowerMap (exportRow v)) (jsToLower "zh_def")
      = some (RawValue.str (v.zhDef.getD "")) := rfl
  have h2 : objGet (lowerMap (exportRow v)) (jsToLower "definition_cn") = none := rfl
  have h3 : objGet (lowerMap (exportRow v)) (jsToLower "中文释义") = none := rfl
  have h4 : objGet (lowerMap (exportRow v)) (jsToLower "释义") = none := rfl
  rw [show zhDefAliases = ["zh_def", "definition_cn", "中文释义", "释义"] from rfl]
  rw [pick_cons_some h1, pick_cons_none h2, pick_cons_none h3, pick_cons_none h4]
  cases hz : v.zhDef with
  | none =>
    simp [pick]
    rfl
  | some s =>
    simp only [textNF, hz, Bool.and_eq_true, beq_iff_eq, bne_iff_ne, ne_eq] at h
    simp only [Option.getD_some, Option.map_some']
    rw [show rawToString (RawValue.str s) = s from rfl, h.1]
    rw [if_pos (by simpa using h.2)]

theorem pick_export_enDef {v : Vocab} (h : textNF v.enDef = true) :
    pick (lowerMap (exportRow v)) enDefAliases = v.enDef.map RawValue.str := by
  have h1 : objGet (lowerMap (exportRow v)) (jsToLower "en_def")
      = some (RawValue.str (v.enDef.getD "")) := rfl
  have h2 : objGet (lowerMap (exportRow v)) (jsToLower "definition") = none := rfl
  have h3 : objGet (lowerMap (exportRow v)) (jsToLower "meaning") = none := rfl
  have h4 : objGet (lowerMap (exportRow v)) (jsToLower "英文释义") = none := rfl
  rw [show enDefAliases = ["en_def", "definition", "meaning", "英文释义"] from rfl]
  rw [pick_cons_some h1, pick_cons_none h2, pick_cons_none h3, pick_cons_none h4]
  cases hz : v.enDef with
  | none =>
    simp [pick]
    rfl
  | some s =>
    simp only [textNF, hz, Bool.and_eq_true, beq_iff_eq, bne_iff_ne, ne_eq] at h
    simp only [Option.getD_some, Option.map_some']
    rw [show rawToString (RawValue.str s) = s from rfl, h.1]
    rw [if_pos (by simpa using h.2)]

theorem pick_export_category {v : Vocab} (h : textNF v.category = true) :
    pick (lowerMap (exportRow v)) categoryAliases = v.category.map RawValue.str := by
  have h1 : objGet (lowerMap (exportRow v)) (jsToLower "category")
      = some (RawValue.str (v.category.getD "")) := rfl
  have h2 : objGet (lowerMap (exportRow v)) (jsToLower "class") = none := rfl
  have h3 : objGet (lowerMap (exportRow v)) (jsToLower "type") = none := rfl
  have h4 : objGet (lowerMap (exportRow v)) (jsToLower "类别") = none := rfl
  rw [show categoryAliases = ["category", "class", "type", "类别"] from rfl]
  rw [pick_cons_some h1, pick_cons_none h2, pick_cons_none h3, pick_cons_none h4]
  cases hz : v.category with
  | none =>
    simp [pick]
    rfl
  | some s =>
    simp only [textNF, hz, Bool.and_eq_true, beq_iff_eq, bne_iff_ne, ne_eq] at h
    simp only [Option.getD_some, Option.map_some']
    rw [show rawToString (RawValue.str s) = s from rfl, h.1]
    rw [if_pos (by simpa using h.2)]

theorem pick_export_example {v : Vocab} (h : freeNF v.exampleText = true) :
    pick (lowerMap (exportRow v)) exampleAliases = v.exampleText.map RawValue.str := by
  have h1 : objGet (lowerMap (exportRow v)) (jsToLower "example")
      = some (RawValue.str (v.exampleText.getD "")) := rfl
  have h2 : objGet (lowerMap (exportRow v)) (jsToLower "例句") = none := rfl
  rw [show exampleAliases = ["example", "例句"] from rfl]
  rw [pick_cons_some h1, pick_cons_none h2]
  cases hz : v.exampleText with
  | none =>
    simp [pick]
    rfl
  | some s =>
    simp only [freeNF, hz, bne_iff_ne, ne_eq] at h
    simp only [Option.getD_some, Option.map_some']
    rw [if_pos (by simpa using h)]

theorem pick_export_details {v : Vocab} (h : freeNF v.details = true) :
    pick (lowerMap (exportRow v)) detailsAliases = v.details.map RawValue.str := by
  have h1 : objGet (lowerMap (exportRow v)) (jsToLower "details")
      = some (RawValue.str (v.details.getD "")) := rfl
  have h2 : objGet (lowerMap (exportRow v)) (jsToLower "背景") = none := rfl
  have h3 : objGet (lowerMap (exportRow v)) (jsToLower "备注") = none := rfl
  rw [show detailsAliases = ["details", "背景", "备注"] from rfl]
  rw [pick_cons_some h1, pick_cons_none h2, pick_cons_none h3]
  cases hz : v.details with
  | none =>
    simp [pick]
    rfl
  | some s =>
    simp only [freeNF, hz, bne_iff_ne, ne_eq] at h
    simp only [Option.getD_some, Option.map_some']
    rw [if_pos (by simpa using h)]

theorem pick_export_tags {v : Vocab} (h : listNF isTagDelim v.tags = true) :
    pick (lowerMap (exportRow v)) tagsAliases
      = v.tags.map (fun l => RawValue.str (joinSep ";" l)) := by
  have h1 : objGet (lowerMap (exportRow v)) (jsToLower "tags")
      = some (RawValue.str (joinSep ";" (v.tags.getD []))) := rfl
  have h2 : objGet (lowerMap (exportRow v)) (jsToLower "标签") = none := rfl
  rw [show tagsAliases = ["tags", "标签"] from rfl]
  rw [pick_cons_some h1, pick_cons_none h2]
  cases hz : v.tags with
  | none =>
    simp [pick]
    rfl
  | some l =>
    obtain ⟨hl, hnf⟩ := listNF_unpack (hz ▸ h)
    have htrim : jsTrim (joinSep ";" l) ≠ "" :=
      joinSep_trim_ne hl (fun e he =>
        ⟨(hnf e he).1, fun c hc => isWS_false_of_tagDelim ((hnf e he).2 c hc)⟩)
    simp only [Option.getD_some, Option.map_some']
    rw [if_pos (by simpa using htrim)]

theorem pick_export_images {v : Vocab} (h : listNF isImgDelim v.images = true) :
    pick (lowerMap (exportRow v)) imagesAliases
      = v.images.map (fun l => RawValue.str (joinSep ";" l)) := by
  have h1 : objGet (lowerMap (exportRow v)) (jsToLower "images")
      = some (RawValue.str (joinSep ";" (v.images.getD []))) := rfl
  have h2 : objGet (lowerMap (exportRow v)) (jsToLower "图片") = none := rfl
  rw [show imagesAliases = ["images", "图片"] from rfl]
  rw [pick_cons_some h1, pick_cons_none h2]
  cases hz : v.images with
  | none =>
    simp [pick]
    rfl
  | some l =>
    obtain ⟨hl, hnf⟩ := listNF_unpack (hz ▸ h)
    have htrim : jsTrim (joinSep ";" l) ≠ "" :=
      joinSep_trim_ne hl (fun e he =>
        ⟨(hnf e he).1, fun c hc => isWS_false_of_imgDelim ((hnf e he).2 c hc)⟩)
    simp only [Option.getD_some, Option.map_some']
    rw [if_pos (by simpa using htrim)]

theorem pick_export_frequency (v : Vocab) :
    pick (lowerMap (exportRow v)) frequencyAliases
      = v.frequency.map (fun n => RawValue.str (numToStr n)) := by
  have h1 : objGet (lowerMap (exportRow v)) (jsToLower "frequency")
      = some (RawValue.str (match v.frequency with | some n => numToStr n | none => "")) := rfl
  have h2 : objGet (lowerMap (exportRow v)) (jsToLower "freq") = none := rfl
  have h3 : objGet (lowerMap (exportRow v)) (jsToLower "权重") = none := rfl
  rw [show frequencyAliases = ["frequency", "freq", "权重"] from rfl]
  rw [pick_cons_some h1, pick_cons_none h2, pick_cons_none h3]
  cases hz : v.frequency with
  | none =>
    simp [pick]
    rfl
  | some n =>
    simp only [Option.map_some']
    rw [if_pos (by simpa using jsTrim_numToStr_ne n)]

theorem listField_map_join {isD : Char → Bool} (hsemi : isD ';' = true)
    {o : Option (List String)} (h : listNF isD o = true) :
    listField isD (o.map (fun l => RawValue.str (joinSep ";" l))) = o := by
  cases o with
  | none => rfl
  | some l =>
    obtain ⟨hl, hnf⟩ := listNF_unpack h
    simp only [Option.map_some', listField]
    rw [jsSplit_join hsemi hl hnf]

theorem freqField_roundtrip (o : Option Nat) :
    (o.map (fun n => RawValue.str (numToStr n))).bind
      (fun x => strToNum (rawToString x)) = o := by
  cases o with
  | none => rfl
  | some n =>
    simp only [Option.map_some', Option.some_bind]
    rw [show rawToString (RawValue.str (numToStr n)) = numToStr n from rfl]
    exact strToNum_numToStr n

theorem normalizeRow_exportRow {v : Vocab} (h : normalEntry v = true) (now idx : Nat) :
    ∃ w, normalizeRow now (exportRow v) idx = some w ∧ FieldEq v w := by
  have hzt : textNF v.zhTitle = true := by
    simp only [normalEntry, Bool.and_eq_true] at h; tauto
  have het : textNF v.enTitle = true := by
    simp only [normalEntry, Bool.and_eq_true] at h; tauto
  have hzd : textNF v.zhDef = true := by
    simp only [normalEntry, Bool.and_eq_true] at h; tauto
  have hed : textNF v.enDef = true := by
    simp only [normalEntry, Bool.and_eq_true] at h; tauto
  have hcat : textNF v.category = true := by
    simp only [normalEntry, Bool.and_eq_true] at h; tauto
  have hex : freeNF v.exampleText = true := by
    simp only [normalEntry, Bool.and_eq_true] at h; tauto
  have hdet : freeNF v.details = true := by
    simp only [normalEntry, Bool.and_eq_true] at h; tauto
  have htags : listNF isTagDelim v.tags = true := by
    simp only [normalEntry, Bool.and_eq_true] at h; tauto
  have himg : listNF isImgDelim v.images = true := by
    simp only [normalEntry, Bool.and_eq_true] at h; tauto
  have hval : (v.zhTitle.isSome || v.zhDef.isSome || v.enTitle.isSome || v.enDef.isSome) = true := by
    simp only [normalEntry, Bool.and_eq_true] at h; tauto
  rw [normalizeRow_eq]
  rw [pick_export_zhTitle hzt, pick_export_enTitle het, pick_export_zhDef hzd,
    pick_export_enDef hed, pick_export_category hcat, pick_export_tags htags,
    pick_export_example hex, pick_export_details hdet, pick_export_images himg,
    pick_export_frequency]
  have hcond : (!(optTruthy (v.zhTitle.map RawValue.str) ||
        optTruthy (v.zhDef.map RawValue.str)) &&
      !(optTruthy (v.enTitle.map RawValue.str) ||
        optTruthy (v.enDef.map RawValue.str))) = false := by
    rw [optTruthy_map_str hzt, optTruthy_map_str hzd, optTruthy_map_str het,
      optTruthy_map_str hed]
    revert hval
    cases v.zhTitle.isSome <;> cases v.zhDef.isSome <;> cases v.enTitle.isSome <;>
      cases v.enDef.isSome <;> simp
  rw [if_neg (by rw [hcond]; exact Bool.false_ne_true)]
  refine ⟨_, rfl, ?_⟩
  unfold FieldEq
  refine ⟨(strField_map_str hzt).symm, (strField_map_str het).symm,
    (strField_map_str hzd).symm, (strField_map_str hed).symm,
    (strField_map_str hcat).symm, (listField_map_join (by decide) htags).symm,
    (rawField_map_str hex).symm, (rawField_map_str hdet).symm,
    (listField_map_join (by decide) himg).symm, (freqField_roundtrip v.frequency).symm⟩

theorem parse_export_aux (now : Nat) :
    ∀ (C : List Vocab) (i0 : Nat), (∀ v ∈ C, normalEntry v = true) →
    List.Forall₂ FieldEq C
      ((List.enumFrom i0 (C.map exportRow)).filterMap
        (fun p => normalizeRow now p.2 p.1)) := by
  intro C
  induction C with
  | nil =>
    intro i0 _
    simp only [List.map_nil, List.enumFrom_nil, List.filterMap_nil]
    exact List.Forall₂.nil
  | cons v C ih =>
    intro i0 hnf
    obtain ⟨w, hw, hfe⟩ :=
      normalizeRow_exportRow (hnf v (List.mem_cons_self v C)) now i0
    simp only [List.map_cons, List.enumFrom_cons, List.filterMap_cons]
    simp only [hw]
    exact List.Forall₂.cons hfe
      (ih (i0 + 1) (fun x hx => hnf x (List.mem_cons_of_mem v hx)))

/-- C1 counterexample: the round trip is not field-by-field the identity on
every Collection.  A legal entry (the retention invariant holds) whose tag
contains a space comes back with that tag split in two: serializing joins
tags with `;` and re-normalizing splits on whitespace as well. -/
theorem spec_C1_counterexample :
    (parseCSVText 0 (exportCSV [vSpacedTag])).map Vocab.tags = [some ["a", "b"]] ∧
    [vSpacedTag].map Vocab.tags = [some ["a b"]] ∧
    ([some ["a", "b"]] : List (Option (List String))) ≠ [some ["a b"]] :=
  ⟨by decide, by decide, by decide⟩

/-- C1 amended: for every Collection in normal form — each text field
absent or non-blank (title, definition and category fields additionally
trimmed, as `normalizeRow` itself produces), each tag/image list absent or
a non-empty list of non-empty fragments containing no delimiter characters
of its own field's split set — serializing with `exportCSV` and
normalizing each row of the output reproduces the Collection entry by
entry, equal in every field except the regenerated `id` and `addedAt`. -/
theorem spec_C1_amended (now : Nat) (C : List Vocab)
    (h : ∀ v ∈ C, normalEntry v = true) :
    List.Forall₂ FieldEq C (parseCSVText now (exportCSV C)) := by
  unfold parseCSVText exportCSV
  rw [show (C.map exportRow).enum = List.enumFrom 0 (C.map exportRow) from rfl]
  exact parse_export_aux now C 0 h

/-- C1 witness: the amended round trip at a concrete normal-form
Collection. -/
theorem spec_C1_witness :
    (∀ v ∈ [vRound], normalEntry v = true) ∧
    List.Forall₂ FieldEq [vRound] (parseCSVText 7 (exportCSV [vRound])) :=
  ⟨by decide, spec_C1_amended 7 [vRound] (by decide)⟩

/-- C3 witness: the null characterization at a concrete category-only
record (scenario B of the spec). -/
theorem spec_C3_witness :
    normalizeRow 0 rCatOnly 0 = none ↔
      ¬((pick (lowerMap rCatOnly) zhTitleAliases).isSome = true ∨
          (pick (lowerMap rCatOnly) zhDefAliases).isSome = true) ∧
      ¬((pick (lowerMap rCatOnly) enTitleAliases).isSome = true ∨
          (pick (lowerMap rCatOnly) enDefAliases).isSome = true) :=
  (spec_C3 0 rCatOnly 0 [rCatOnly]).1

/-- C4 witness: key-normalization invariance at a concrete record whose key
is upper-case and padded with whitespace. -/
theorem spec_C4_witness :
    normalizeRow 0 (lowerMap rUpperKey) 0 = normalizeRow 0 rUpperKey 0 :=
  (spec_C4 0 rUpperKey 0 zhTitleAliases).1

/-- C6 witness: membership narrowing at a concrete state, with the view
membership hypothesis discharged by an explicit computation. -/
theorem spec_C6_witness :
    sampleZh ∈ filtered {} ∅ [sampleZh] ∧ sampleZh ∈ [sampleZh] := by
  have hf : filtered {} ∅ [sampleZh] = [sampleZh] := by
    unfold filtered
    rw [show filterChain {} ∅ [sampleZh] = [sampleZh] from rfl]
    exact List.mergeSort_singleton sampleZh
  have hm : sampleZh ∈ filtered {} ∅ [sampleZh] := by
    rw [hf]
    exact List.mem_cons_self sampleZh []
  exact ⟨hm, (spec_C6 {} ∅ [sampleZh]).2 sampleZh hm⟩
